import Mathlib

/-!
Shallow embedding of `src/index.js` of victor141516/wordle-solver.

Words are modelled as `List Char` (the JS `Word` class stores
`characters = text.split('')`).  The three feedback colors are the
constants `WordFilter.COLORS`; a `WordFilter` is its list of
`positions`, each a `{character, value}` pair.  A `Game` holds the
filter history, the secret and the dictionary.  The letter-grading
table `CHARS_GRADING` comes from the external module `./words` (not
part of the repository's src), so it is passed as a parameter.
-/

namespace WordleSolver

/-- `WordFilter.COLORS`: GRAY = 0, YELLOW = 1, GREEN = 2. -/
inductive Color where
  | GRAY
  | YELLOW
  | GREEN
deriving DecidableEq, Repr

/-- One entry of `WordFilter.positions`: a `{character, value}` pair. -/
structure PosFB where
  character : Char
  value : Color
deriving DecidableEq, Repr

/-- The `Word` class: `characters`, derived `vowels`, `consonants` and the
`repeatedCharaters` count map (kept as an association list). -/
structure Word where
  characters : List Char
  vowels : List Char
  consonants : List Char
  repeatedCharaters : List (Char × Nat)
deriving DecidableEq, Repr

/-- `Word` constructor: splits the text into characters and derives the
vowel/consonant/repeat data.  The JS constructor performs no length
check of any kind. -/
def mkWord (text : String) : Word :=
  let characters := text.toList
  { characters := characters
    vowels := characters.filter (fun c => "aeiou".toList.contains c)
    consonants := characters.filter (fun c => !("aeiou".toList.contains c))
    repeatedCharaters :=
      ((characters.map (fun c => (c, (characters.filter (fun d => d == c)).length))).filter
          (fun p => p.2 > 1)).foldl
        (fun acc p => (acc.filter (fun q => q.1 != p.1)) ++ [p]) [] }

/-- `Word.hasChar`. -/
def Word.hasChar (w : Word) (c : Char) : Bool :=
  w.characters.contains c

/-- `Word.toString`. -/
def wordToString (w : Word) : String :=
  String.mk w.characters

/-- First pass of `Game.newTry`: classify each position GREEN / YELLOW /
GRAY (`word.characters.map((character, i) => ...)`).  Out-of-range
access `secret.characters[i]` yields `undefined` in JS, which is never
equal to a character; `List.get?` models this. -/
def pass1 (guess secret : List Char) : List PosFB :=
  guess.mapIdx (fun i c =>
    if secret.get? i = some c then ⟨c, Color.GREEN⟩
    else if secret.contains c then ⟨c, Color.YELLOW⟩
    else ⟨c, Color.GRAY⟩)

/-- The characters currently marked GREEN in a filter
(`wf.positions.filter(v => v === GREEN).map(c => c.character)`). -/
def greensOf (ps : List PosFB) : List Char :=
  (ps.filter (fun p => p.value == Color.GREEN)).map (fun p => p.character)

/-- One iteration of the `forEach` post-pass of `Game.newTry`: if
position `i` is YELLOW and its character is GREEN somewhere, overwrite
position `i` with a GRAY entry. -/
def postStep (ps : List PosFB) (i : Nat) : List PosFB :=
  match ps.get? i with
  | none => ps
  | some p =>
    if p.value = Color.YELLOW then
      if (greensOf ps).contains p.character then
        ps.set i ⟨p.character, Color.GRAY⟩
      else ps
    else ps

/-- `Game.newTry`: first pass, then the duplicate-letter post-pass run
sequentially over the indices of the guess. -/
def newTry (guess secret : List Char) : List PosFB :=
  (List.range guess.length).foldl postStep (pass1 guess secret)

/-- `WordFilter.isWin`: every position is GREEN. -/
def isWin (ps : List PosFB) : Bool :=
  ps.all (fun p => p.value == Color.GREEN)

/-- Pure (one-shot) form of the `newTry` post-pass: every YELLOW entry
whose character is GREEN somewhere in the filter becomes GRAY. -/
def downgrade (ps : List PosFB) : List PosFB :=
  ps.map (fun p =>
    if p.value == Color.YELLOW && (greensOf ps).contains p.character then
      ⟨p.character, Color.GRAY⟩
    else p)

/-- Relation between an entry of the first pass and the corresponding
entry after (part of) the post-pass: unchanged, or a YELLOW entry turned
into a GRAY one with the same character. -/
def Rdown (p q : PosFB) : Prop :=
  q = p ∨ (p.value = Color.YELLOW ∧ q = ⟨p.character, Color.GRAY⟩)

/-- The feedback algorithm exactly as the spec describes it: GREEN on a
positional match, YELLOW when the secret holds the character at some
other index, GRAY otherwise; then every YELLOW whose character appears
as GREEN at some other index is downgraded to GRAY. -/
def newTryDescribed (guess secret : List Char) : List PosFB :=
  let firstPass : List PosFB := guess.mapIdx (fun i c =>
    if secret.get? i = some c then ⟨c, Color.GREEN⟩
    else if ∃ j ∈ List.range secret.length, j ≠ i ∧ secret.get? j = some c then
      ⟨c, Color.YELLOW⟩
    else ⟨c, Color.GRAY⟩)
  firstPass.mapIdx (fun i p =>
    if p.value = Color.YELLOW ∧
        ∃ j ∈ List.range firstPass.length, j ≠ i ∧
          firstPass.get? j = some ⟨p.character, Color.GREEN⟩ then
      ⟨p.character, Color.GRAY⟩
    else p)

/-- `Game` state: the filter history, the secret and the dictionary.
(The JS constructor also fills an `availableWords` field, but it is
shadowed by a local variable in `guessWord` and never read.) -/
structure Game where
  wordFilters : List (List PosFB)
  secretWord : List Char
  allWords : List (List Char)
deriving DecidableEq

/-- `Game.usedWords`: the word of each filter in the history, read back
from the per-position characters. -/
def usedWords (g : Game) : List (List Char) :=
  g.wordFilters.map (fun wf => wf.map (fun p => p.character))

/-- `Game.greenChars`: a 5-slot array initialised to `null`, overwritten
(last write wins) by every GREEN position in the history. -/
def greenChars (g : Game) : List (Option Char) :=
  g.wordFilters.foldl
    (fun acc wf =>
      wf.enum.foldl
        (fun acc2 ip =>
          if ip.2.value == Color.GREEN then acc2.set ip.1 (some ip.2.character) else acc2)
        acc)
    [none, none, none, none, none]

/-- `Array.from(new Set(...))`: deduplication keeping first occurrences. -/
def dedupFirst (l : List Char) : List Char :=
  l.foldl (fun acc c => if acc.contains c then acc else acc ++ [c]) []

/-- `this.wordFilters.map((wf) => wf.positions).flat()`. -/
def allPositions (g : Game) : List PosFB :=
  (g.wordFilters.map (fun wf => wf)).flatten

/-- `Game.yellowChars`: distinct YELLOW characters of the history, minus
characters green somewhere. -/
def yellowChars (g : Game) : List Char :=
  (dedupFirst
      (((allPositions g).filter (fun p => p.value == Color.YELLOW)).map
        (fun p => p.character))).filter
    (fun c => !((greenChars g).contains (some c)))

/-- `Game.grayChars`: distinct GRAY characters of the history, minus
characters green somewhere.  (Note: the code does NOT subtract
`yellowChars`.) -/
def grayChars (g : Game) : List Char :=
  (dedupFirst
      (((allPositions g).filter (fun p => p.value == Color.GRAY)).map
        (fun p => p.character))).filter
    (fun c => !((greenChars g).contains (some c)))

/-- The three booleans `Game.evaluateWord` returns. -/
structure Grade where
  gray : Bool
  green : Bool
  yellow : Bool
deriving DecidableEq, Repr

/-- `Game.evaluateWord`.  In `passYellow`, the code after the
unconditional `return true` is unreachable, and the `positionIsGreen`
test is immaterial because both live branches return `true`; the
simplified behaviour is kept. -/
def evaluateWord (g : Game) (w : List Char) : Grade :=
  let passGray := !((grayChars g).any (fun c => w.contains c))
  let passGreen := (greenChars g).enum.all (fun ic =>
    match ic.2 with
    | none => true
    | some c => w.get? ic.1 == some c)
  let passYellow := (yellowChars g).all (fun c =>
    if !(w.contains c) then false else true)
  ⟨passGray, passGreen, passYellow⟩

/-- One graded word of `Game.gradeWords`. -/
structure GradedWord where
  word : List Char
  grade : List ℚ
deriving DecidableEq

/-- `grade.reduce((a, e) => a + e)` on a non-empty grade vector. -/
def gradeSum (l : List ℚ) : ℚ :=
  l.foldl (fun a e => a + e) 0

/-- Stable descending insertion by grade sum, modelling the JS
`sort((a, b) => sumB - sumA)` (ES2019 sort is stable). -/
def insertDescBySum (x : GradedWord) : List GradedWord → List GradedWord
  | [] => [x]
  | y :: ys =>
    if gradeSum y.grade < gradeSum x.grade then x :: y :: ys
    else y :: insertDescBySum x ys

def sortByGradeDesc (l : List GradedWord) : List GradedWord :=
  l.foldr insertDescBySum []

/-- The local `existingCharacters` of `Game.gradeWords`: distinct
non-null members of `greenChars.concat(yellowChars)`. -/
def existingCharacters (g : Game) : List Char :=
  dedupFirst (((greenChars g) ++ (yellowChars g).map some).filterMap id)

/-- `Game.gradeWords`.  `grading` is the external `CHARS_GRADING` table
from `./words`. -/
def gradeWords (grading : Char → ℚ) (g : Game) (params : List ℚ)
    (ws : List (List Char)) : List GradedWord :=
  sortByGradeDesc (ws.map (fun word =>
    { word := word
      grade :=
        [(((word.filter (fun c => !((existingCharacters g).contains c))).length : ℚ) / 5) *
            params.getD 0 0,
          (((dedupFirst word).length : ℚ) / 5) * params.getD 1 0,
          (word.foldl (fun acc c => acc + grading c / 5) 0) * params.getD 2 0] }))

/-- The local `availableWords` of `Game.guessWord`: dictionary minus the
already-guessed words. -/
def availableWords (g : Game) : List (List Char) :=
  g.allWords.filter (fun w => !((usedWords g).contains w))

/-- The seven buckets of `Game.guessWord`, in object-key insertion
order. -/
def typeGradedWords (g : Game) (avail : List (List Char)) :
    List (String × List (List Char)) :=
  let gradedWords := avail.map (fun word => (evaluateWord g word, word))
  [("g", (gradedWords.filter (fun p => p.1.gray)).map (fun p => p.2)),
    ("v", (gradedWords.filter (fun p => p.1.green)).map (fun p => p.2)),
    ("y", (gradedWords.filter (fun p => p.1.yellow)).map (fun p => p.2)),
    ("gv", (gradedWords.filter (fun p => p.1.gray && p.1.green)).map (fun p => p.2)),
    ("gy", (gradedWords.filter (fun p => p.1.gray && p.1.yellow)).map (fun p => p.2)),
    ("yv", (gradedWords.filter (fun p => p.1.green && p.1.yellow)).map (fun p => p.2)),
    ("gvy", (gradedWords.filter (fun p => p.1.gray && p.1.green && p.1.yellow)).map
      (fun p => p.2))]

/-- `Math.min(...values)` over a non-empty list. -/
def listMin : List Nat → Nat
  | [] => 0
  | x :: xs => xs.foldl Nat.min x

/-- `values.findIndex((e) => e === max)` where `max = Math.min(...values)`:
the index of the first bucket of minimum size.  (The JS code looks the
bucket up by the key at this index; keys are distinct, so that lookup is
the entry at this index.) -/
def usedKeyIdx (tg : List (String × List (List Char))) : Nat :=
  let values := tg.map (fun p => p.2.length)
  values.findIdx (fun e => e == listMin values)

/-- Index of the bucket `guessWord` selects. -/
def chosenIdx (g : Game) : Nat :=
  usedKeyIdx (typeGradedWords g (availableWords g))

/-- The bucket stored at index `j` of the bucket table. -/
def bucketAt (g : Game) (j : Nat) : List (List Char) :=
  ((typeGradedWords g (availableWords g)).getD j ("", [])).2

/-- `Game.guessWord`.  The final `[0].word` on an empty graded list is a
JS `TypeError` (reading `.word` of `undefined`); it is modelled as a
distinct error value. -/
def guessWord (grading : Char → ℚ) (g : Game) : Except String (List Char) :=
  if (availableWords g).length = 0 then Except.error "No words remaining"
  else if (availableWords g).length = 1 then Except.ok ((availableWords g).headD [])
  else
    match gradeWords grading g [1, 1, 1] (bucketAt g (chosenIdx g)) with
    | [] => Except.error "TypeError"
    | gw :: _ => Except.ok gw.word

/-- A two-filter history in which 'a' was once marked YELLOW and once
marked GRAY, and is never GREEN. -/
def exHistoryG : Game :=
  ⟨[[⟨'a', Color.YELLOW⟩, ⟨'b', Color.GRAY⟩, ⟨'b', Color.GRAY⟩, ⟨'b', Color.GRAY⟩,
      ⟨'b', Color.GRAY⟩],
    [⟨'a', Color.GRAY⟩, ⟨'b', Color.GRAY⟩, ⟨'b', Color.GRAY⟩, ⟨'b', Color.GRAY⟩,
      ⟨'b', Color.GRAY⟩]],
   [], []⟩

/-- A game with a one-word dictionary and no guesses yet. -/
def exSingleG : Game := ⟨[], [], [['c', 'r', 'a', 'n', 'e']]⟩

/-- A state with two unused candidates, both containing the gray
character 'a': the "g" bucket is empty, so it is the minimum bucket and
`guessWord` hits the JS TypeError. -/
def exNoPassG : Game :=
  ⟨[[⟨'a', Color.GRAY⟩, ⟨'a', Color.GRAY⟩, ⟨'a', Color.GRAY⟩, ⟨'a', Color.GRAY⟩,
      ⟨'a', Color.GRAY⟩]],
   [],
   [['a', 'a', 'a', 'a', 'a'], ['a', 'b', 'a', 'b', 'a'], ['a', 'c', 'a', 'c', 'a']]⟩

/-- The average computed by `train`'s inner `reduce`: starting from 0,
each game adds `tries / length`, where `length` is the size of the
sampled secret list. -/
def genAvg (tries : List Nat) : ℚ :=
  tries.foldl (fun avg t => avg + (t : ℚ) / tries.length) 0

/-- The state `train` threads across generations: `bestAvg` (initially
100) and `bestAvgParams` (initially `[]`). -/
structure TrainState where
  bestAvg : ℚ
  bestAvgParams : List ℚ
deriving DecidableEq

/-- One generation (the `loop` closure of `train`): simulate the games,
then keep the sampled parameter vector if its average is strictly
better. -/
def trainLoop (newParams : List ℚ) (tries : List Nat) (st : TrainState) : TrainState :=
  if genAvg tries < st.bestAvg then ⟨genAvg tries, newParams⟩ else st

/-- `train(generations, children)` over a fixed sequence of random
draws: `draws k` is the 4-dimensional parameter vector sampled at
generation `k` and `gameTries k` are the try counts (`wordFilters.length`
after `play`) of the games simulated at generation `k`.  Both are pure
functions of the fixed draw sequence; the claim quantifies over every
such sequence, so they are parameters of the embedding. -/
def train (draws : Nat → List ℚ) (gameTries : Nat → List Nat)
    (generations : Nat) : TrainState :=
  (List.range generations).foldl
    (fun st k => trainLoop (draws k) (gameTries k) st) ⟨100, []⟩

lemma greensOf_cons (p : PosFB) (l : List PosFB) :
    greensOf (p :: l) =
      if p.value == Color.GREEN then p.character :: greensOf l else greensOf l := by
  simp only [greensOf, List.filter_cons]
  cases h : (p.value == Color.GREEN) <;> simp

lemma forall2_rdown_refl (l : List PosFB) : List.Forall₂ Rdown l l := by
  induction l with
  | nil => exact List.Forall₂.nil
  | cons a l ih => exact List.Forall₂.cons (Or.inl rfl) ih

lemma greensOf_eq_of_forall2 {ps qs : List PosFB}
    (h : List.Forall₂ Rdown ps qs) : greensOf qs = greensOf ps := by
  induction h with
  | nil => rfl
  | cons hr hf ih =>
    rename_i p q ps' qs'
    rcases hr with rfl | ⟨hy, rfl⟩
    · rw [greensOf_cons, greensOf_cons, ih]
    · rw [greensOf_cons, greensOf_cons, ih, hy]
      simp

lemma forall2_rdown_set {ps : List PosFB} {j : Nat} {p q : PosFB}
    (hj : ps.get? j = some p) (hr : Rdown p q) :
    List.Forall₂ Rdown ps (ps.set j q) := by
  induction ps generalizing j with
  | nil => simp at hj
  | cons a l ih =>
    cases j with
    | zero =>
      simp only [List.get?] at hj
      injection hj with hj
      subst hj
      exact List.Forall₂.cons hr (forall2_rdown_refl l)
    | succ n =>
      simp only [List.get?] at hj
      exact List.Forall₂.cons (Or.inl rfl) (ih hj)

lemma postStep_of_get? {ps : List PosFB} {i : Nat} {p : PosFB}
    (h : ps.get? i = some p) :
    postStep ps i =
      if p.value = Color.YELLOW then
        if (greensOf ps).contains p.character then
          ps.set i ⟨p.character, Color.GRAY⟩
        else ps
      else ps := by
  unfold postStep
  rw [h]

lemma foldl_range_inv {α : Type} (step : α → Nat → α) (P : Nat → α → Prop)
    (n : Nat) (a : α) (h0 : P 0 a)
    (hs : ∀ j b, j < n → P j b → P (j + 1) (step b j)) :
    P n ((List.range n).foldl step a) := by
  induction n with
  | zero => simpa using h0
  | succ n ih =>
    rw [List.range_succ, List.foldl_append]
    exact hs n _ (Nat.lt_succ_self n)
      (ih (fun j b hj hp => hs j b (Nat.lt_succ_of_lt hj) hp))

/-- The sequential mutating post-pass of `Game.newTry` computes exactly
the one-shot `downgrade`: mutation only ever turns YELLOW entries GRAY,
so the set of GREEN characters consulted at each step never changes. -/
lemma foldl_postStep_eq_downgrade (orig : List PosFB) :
    (List.range orig.length).foldl postStep orig = downgrade orig := by
  have key : ((List.range orig.length).foldl postStep orig).length = orig.length ∧
      greensOf ((List.range orig.length).foldl postStep orig) = greensOf orig ∧
      (∀ i, orig.length ≤ i →
        ((List.range orig.length).foldl postStep orig).get? i = orig.get? i) ∧
      (∀ i, i < orig.length →
        ((List.range orig.length).foldl postStep orig).get? i = (downgrade orig).get? i) := by
    refine foldl_range_inv postStep
      (fun j st => st.length = orig.length ∧ greensOf st = greensOf orig ∧
        (∀ i, j ≤ i → st.get? i = orig.get? i) ∧
        (∀ i, i < j → st.get? i = (downgrade orig).get? i))
      orig.length orig ?_ ?_
    · exact ⟨rfl, rfl, fun i _ => rfl, fun i hi => absurd hi (Nat.not_lt_zero i)⟩
    · intro j st hj hP
      obtain ⟨hlen, hgr, hge, hlt⟩ := hP
      have hoj : orig.get? j = some orig[j] := by
        rw [List.get?_eq_getElem?]
        exact List.getElem?_eq_getElem hj
      have hstj : st.get? j = some orig[j] := by rw [hge j (Nat.le_refl j)]; exact hoj
      have hdj : (downgrade orig).get? j = some
          (if orig[j].value == Color.YELLOW && (greensOf orig).contains orig[j].character then
            (⟨orig[j].character, Color.GRAY⟩ : PosFB)
          else orig[j]) := by
        rw [downgrade, List.get?_eq_getElem?, List.getElem?_map, ← List.get?_eq_getElem?, hoj]
        rfl
      rw [postStep_of_get? hstj]
      by_cases hy : orig[j].value = Color.YELLOW
      · rw [if_pos hy]
        by_cases hc : ((greensOf st).contains orig[j].character) = true
        · rw [if_pos hc]
          have hset : List.Forall₂ Rdown st (st.set j ⟨orig[j].character, Color.GRAY⟩) :=
            forall2_rdown_set hstj (Or.inr ⟨hy, rfl⟩)
          have hgr' : greensOf (st.set j ⟨orig[j].character, Color.GRAY⟩) = greensOf orig := by
            rw [greensOf_eq_of_forall2 hset, hgr]
          refine ⟨by rw [List.length_set]; exact hlen, hgr', ?_, ?_⟩
          · intro i hi
            have hne : j ≠ i := by omega
            rw [List.get?_eq_getElem?, List.getElem?_set_ne hne, ← List.get?_eq_getElem?]
            exact hge i (by omega)
          · intro i hi
            rcases Nat.lt_or_ge i j with hij | hij
            · have hne : j ≠ i := by omega
              rw [List.get?_eq_getElem?, List.getElem?_set_ne hne, ← List.get?_eq_getElem?]
              exact hlt i hij
            · have hij' : i = j := by omega
              subst hij'
              have hilen : i < st.length := by rw [hlen]; exact hj
              rw [List.get?_eq_getElem?, List.getElem?_set_self hilen, hdj]
              have hcond : (orig[i].value == Color.YELLOW &&
                  (greensOf orig).contains orig[i].character) = true := by
                rw [← hgr, Bool.and_eq_true]
                exact ⟨by rw [hy]; rfl, hc⟩
              rw [hcond]
              simp
        · rw [if_neg hc]
          refine ⟨hlen, hgr, fun i hi => hge i (by omega), ?_⟩
          intro i hi
          rcases Nat.lt_or_ge i j with hij | hij
          · exact hlt i hij
          · have hij' : i = j := by omega
            subst hij'
            rw [hstj, hdj]
            have hcond : (orig[i].value == Color.YELLOW &&
                (greensOf orig).contains orig[i].character) = false := by
              rw [← hgr]
              simp only [Bool.and_eq_false_iff]
              right
              exact Bool.of_not_eq_true hc
            rw [hcond]
            simp
      · rw [if_neg hy]
        refine ⟨hlen, hgr, fun i hi => hge i (by omega), ?_⟩
        intro i hi
        rcases Nat.lt_or_ge i j with hij | hij
        · exact hlt i hij
        · have hij' : i = j := by omega
          subst hij'
          rw [hstj, hdj]
          have hcond : (orig[i].value == Color.YELLOW &&
              (greensOf orig).contains orig[i].character) = false := by
            simp only [Bool.and_eq_false_iff]
            left
            simpa using hy
          rw [hcond]
          simp
  obtain ⟨hlen, _, _, hlt⟩ := key
  apply List.ext_get?
  intro n
  rcases Nat.lt_or_ge n orig.length with hn | hn
  · exact hlt n hn
  · rw [List.get?_eq_getElem?, List.get?_eq_getElem?,
      List.getElem?_eq_none (by rw [hlen]; exact hn),
      List.getElem?_eq_none (by rw [downgrade, List.length_map]; exact hn)]

/-- `newTry` in closed form: first pass, then the one-shot downgrade. -/
lemma newTry_eq_downgrade_pass1 (guess secret : List Char) :
    newTry guess secret = downgrade (pass1 guess secret) := by
  have hlen : guess.length = (pass1 guess secret).length := by
    rw [pass1, List.length_mapIdx]
  rw [newTry, hlen]
  exact foldl_postStep_eq_downgrade (pass1 guess secret)

lemma isWin_downgrade (ps : List PosFB) : isWin (downgrade ps) = isWin ps := by
  unfold isWin downgrade
  rw [List.all_map]
  congr 1
  funext p
  simp only [Function.comp_apply]
  by_cases h : (p.value == Color.YELLOW && (greensOf ps).contains p.character) = true
  · rw [if_pos h]
    have hy : p.value = Color.YELLOW := by
      have := ((Bool.and_eq_true _ _).mp h).1
      exact beq_iff_eq.mp this
    rw [hy]
    rfl
  · rw [if_neg h]

/-- C1: for guesses and secrets of the same length, the feedback
produced by `Game.newTry` has `isWin` true exactly when the guess
equals the secret character for character. -/
theorem c1_newTry_isWin_iff_eq (guess secret : List Char)
    (h : guess.length = secret.length) :
    isWin (newTry guess secret) = true ↔ guess = secret := by
  rw [newTry_eq_downgrade_pass1, isWin_downgrade]
  constructor
  · intro hw
    apply List.ext_get?
    intro n
    rcases Nat.lt_or_ge n guess.length with hn | hn
    · have hg : guess.get? n = some guess[n] := by
        rw [List.get?_eq_getElem?]
        exact List.getElem?_eq_getElem hn
      have hmem : (⟨guess[n],
          if secret.get? n = some guess[n] then Color.GREEN
          else if secret.contains guess[n] then Color.YELLOW else Color.GRAY⟩ : PosFB) ∈
          pass1 guess secret := by
        apply List.get?_mem (n := n)
        rw [pass1, List.get?_eq_getElem?, List.getElem?_mapIdx, ← List.get?_eq_getElem?, hg]
        by_cases h1 : secret.get? n = some guess[n]
        · rw [if_pos h1]
          rw [Option.map_some']
          rw [if_pos h1]
        · rw [if_neg h1]
          by_cases h2 : secret.contains guess[n] = true
          · rw [if_pos h2]
            rw [Option.map_some']
            rw [if_neg h1, if_pos h2]
          · rw [if_neg h2]
            rw [Option.map_some']
            rw [if_neg h1, if_neg h2]
      have hgreen := (List.all_eq_true.mp hw) _ hmem
      simp only [beq_iff_eq] at hgreen
      by_cases h1 : secret.get? n = some guess[n]
      · rw [hg, h1]
      · rw [if_neg h1] at hgreen
        by_cases h2 : secret.contains guess[n] = true
        · rw [if_pos h2] at hgreen
          exact absurd hgreen (by intro hx; cases hx)
        · rw [if_neg h2] at hgreen
          exact absurd hgreen (by intro hx; cases hx)
    · rw [List.get?_eq_getElem?, List.get?_eq_getElem?, List.getElem?_eq_none hn,
        List.getElem?_eq_none (by omega)]
  · intro he
    subst he
    rw [isWin, List.all_eq_true]
    intro p hp
    obtain ⟨n, hn⟩ := List.mem_iff_get?.mp hp
    have hlt : n < guess.length := by
      by_contra hge
      rw [pass1, List.get?_eq_getElem?, List.getElem?_mapIdx,
        List.getElem?_eq_none (by omega)] at hn
      cases hn
    have hg : guess.get? n = some guess[n] := by
      rw [List.get?_eq_getElem?]
      exact List.getElem?_eq_getElem hlt
    rw [pass1, List.get?_eq_getElem?, List.getElem?_mapIdx, ← List.get?_eq_getElem?, hg] at hn
    rw [Option.map_some'] at hn
    rw [if_pos rfl] at hn
    injection hn with hn
    rw [← hn]
    rfl

/-- Closed instance of C1: guessing the secret itself wins. -/
theorem c1_witness :
    isWin (newTry ['a', 'a', 'b', 'c', 'd'] ['a', 'a', 'b', 'c', 'd']) = true :=
  (c1_newTry_isWin_iff_eq ['a', 'a', 'b', 'c', 'd'] ['a', 'a', 'b', 'c', 'd']
    (by decide)).mpr rfl

lemma mem_greensOf {ps : List PosFB} {c : Char} :
    c ∈ greensOf ps ↔ ∃ p ∈ ps, p.value = Color.GREEN ∧ p.character = c := by
  unfold greensOf
  constructor
  · intro hc
    obtain ⟨p, hp, hpc⟩ := List.mem_map.mp hc
    obtain ⟨hmem, hval⟩ := List.mem_filter.mp hp
    exact ⟨p, hmem, beq_iff_eq.mp hval, hpc⟩
  · rintro ⟨p, hp, hval, rfl⟩
    exact List.mem_map.mpr ⟨p, List.mem_filter.mpr ⟨hp, beq_iff_eq.mpr hval⟩, rfl⟩

lemma posFB_eta {p : PosFB} {c : Char} (hv : p.value = Color.GREEN)
    (hc : p.character = c) : p = ⟨c, Color.GREEN⟩ := by
  cases p
  simp_all

/-- C2 support: the first pass of `newTry` agrees with the spec's
description of the first pass. -/
lemma pass1_eq_described (guess secret : List Char) :
    pass1 guess secret = guess.mapIdx (fun i c =>
      if secret.get? i = some c then ⟨c, Color.GREEN⟩
      else if ∃ j ∈ List.range secret.length, j ≠ i ∧ secret.get? j = some c then
        ⟨c, Color.YELLOW⟩
      else ⟨c, Color.GRAY⟩) := by
  apply List.ext_get?
  intro n
  rw [pass1, List.get?_eq_getElem?, List.get?_eq_getElem?, List.getElem?_mapIdx,
    List.getElem?_mapIdx]
  cases hg : guess[n]? with
  | none => rfl
  | some c =>
    rw [Option.map_some', Option.map_some']
    by_cases h1 : secret.get? n = some c
    · rw [if_pos h1, if_pos h1]
    · rw [if_neg h1, if_neg h1]
      have hiff : secret.contains c = true ↔
          ∃ j ∈ List.range secret.length, j ≠ n ∧ secret.get? j = some c := by
        constructor
        · intro hc
          have hmem : c ∈ secret := by simpa using hc
          obtain ⟨m, hm⟩ := List.mem_iff_get?.mp hmem
          have hmlt : m < secret.length := by
            rw [List.get?_eq_getElem?] at hm
            exact (List.getElem?_eq_some.mp hm).1
          have hmn : m ≠ n := by
            intro he
            rw [he] at hm
            exact h1 hm
          exact ⟨m, List.mem_range.mpr hmlt, hmn, hm⟩
        · rintro ⟨j, _, _, hj⟩
          have : c ∈ secret := List.get?_mem hj
          simpa using this
      by_cases h2 : secret.contains c = true
      · rw [if_pos h2, if_pos (hiff.mp h2)]
      · rw [if_neg h2, if_neg (fun hx => h2 (hiff.mpr hx))]

/-- C2 support: the one-shot downgrade agrees with the spec's
description of the post-pass. -/
lemma downgrade_eq_described (ps : List PosFB) :
    downgrade ps = ps.mapIdx (fun i p =>
      if p.value = Color.YELLOW ∧
          ∃ j ∈ List.range ps.length, j ≠ i ∧
            ps.get? j = some ⟨p.character, Color.GREEN⟩ then
        ⟨p.character, Color.GRAY⟩
      else p) := by
  apply List.ext_get?
  intro n
  rw [downgrade, List.get?_eq_getElem?, List.get?_eq_getElem?, List.getElem?_map,
    List.getElem?_mapIdx]
  cases hn : ps[n]? with
  | none => rfl
  | some p =>
    rw [Option.map_some', Option.map_some']
    have hpsn : ps.get? n = some p := by rw [List.get?_eq_getElem?]; exact hn
    have hiff : (p.value == Color.YELLOW && (greensOf ps).contains p.character) = true ↔
        (p.value = Color.YELLOW ∧
          ∃ j ∈ List.range ps.length, j ≠ n ∧
            ps.get? j = some ⟨p.character, Color.GREEN⟩) := by
      rw [Bool.and_eq_true, beq_iff_eq]
      constructor
      · rintro ⟨hy, hc⟩
        refine ⟨hy, ?_⟩
        have hmem : p.character ∈ greensOf ps := by simpa using hc
        obtain ⟨q, hq, hqv, hqc⟩ := mem_greensOf.mp hmem
        have hqe : q = ⟨p.character, Color.GREEN⟩ := posFB_eta hqv hqc
        subst hqe
        obtain ⟨m, hm⟩ := List.mem_iff_get?.mp hq
        have hmlt : m < ps.length := by
          rw [List.get?_eq_getElem?] at hm
          exact (List.getElem?_eq_some.mp hm).1
        have hmn : m ≠ n := by
          intro he
          rw [he, hpsn] at hm
          injection hm with hm
          rw [hm] at hy
          simp at hy
        exact ⟨m, List.mem_range.mpr hmlt, hmn, hm⟩
      · rintro ⟨hy, j, _, _, hj⟩
        refine ⟨hy, ?_⟩
        have hmem : (⟨p.character, Color.GREEN⟩ : PosFB) ∈ ps := List.get?_mem hj
        have : p.character ∈ greensOf ps :=
          mem_greensOf.mpr ⟨⟨p.character, Color.GREEN⟩, hmem, rfl, rfl⟩
        simpa using this
    by_cases hb : (p.value == Color.YELLOW && (greensOf ps).contains p.character) = true
    · rw [if_pos hb, if_pos (hiff.mp hb)]
    · rw [if_neg hb, if_neg (fun hx => hb (hiff.mpr hx))]

/-- C2: the feedback computation classifies each index GREEN on a match,
YELLOW when the secret holds the character somewhere else, GRAY
otherwise, then downgrades to GRAY every YELLOW whose character is
GREEN at another index; and for secret "aabcd", guess "aaxyz" the
result is GREEN, GREEN, GRAY, GRAY, GRAY. -/
theorem c2_newTry_described :
    (∀ guess secret : List Char, newTry guess secret = newTryDescribed guess secret) ∧
    newTry ['a', 'a', 'x', 'y', 'z'] ['a', 'a', 'b', 'c', 'd'] =
      [⟨'a', Color.GREEN⟩, ⟨'a', Color.GREEN⟩, ⟨'x', Color.GRAY⟩,
        ⟨'y', Color.GRAY⟩, ⟨'z', Color.GRAY⟩] := by
  constructor
  · intro guess secret
    rw [newTry_eq_downgrade_pass1, newTryDescribed]
    rw [downgrade_eq_described, pass1_eq_described]
  · decide

lemma downgrade_get? (ps : List PosFB) (n : Nat) :
    (downgrade ps).get? n = (ps.get? n).map (fun p =>
      if p.value == Color.YELLOW && (greensOf ps).contains p.character then
        (⟨p.character, Color.GRAY⟩ : PosFB)
      else p) := by
  rw [downgrade, List.get?_eq_getElem?, List.getElem?_map, List.get?_eq_getElem?]

/-- C10: feedback from `Game.newTry` has exactly as many positions as
the guess, stores the guess's character at each index, and the
duplicate-letter post-pass only ever turns a YELLOW entry into a GRAY
one with the same character — GREEN and GRAY entries of the first pass
are returned untouched. -/
theorem c10_newTry_positions_shape (guess secret : List Char) :
    (newTry guess secret).length = guess.length ∧
    (newTry guess secret).map (fun p => p.character) = guess ∧
    (∀ n p, (pass1 guess secret).get? n = some p → p.value ≠ Color.YELLOW →
      (newTry guess secret).get? n = some p) ∧
    (∀ n p q, (pass1 guess secret).get? n = some p →
      (newTry guess secret).get? n = some q → q ≠ p →
      p.value = Color.YELLOW ∧ q = ⟨p.character, Color.GRAY⟩) := by
  rw [newTry_eq_downgrade_pass1]
  refine ⟨?_, ?_, ?_, ?_⟩
  · rw [downgrade, List.length_map, pass1, List.length_mapIdx]
  · apply List.ext_get?
    intro n
    rw [List.get?_eq_getElem?, List.getElem?_map, ← List.get?_eq_getElem?, downgrade_get?,
      pass1, List.get?_eq_getElem?, List.getElem?_mapIdx, ← List.get?_eq_getElem?]
    cases hg : guess.get? n with
    | none => rfl
    | some c =>
      rw [Option.map_some', Option.map_some', Option.map_some']
      by_cases h1 : secret.get? n = some c
      · rw [if_pos h1]
        split <;> rfl
      · rw [if_neg h1]
        by_cases h2 : secret.contains c = true
        · rw [if_pos h2]
          split <;> rfl
        · rw [if_neg h2]
          split <;> rfl
  · intro n p hp hv
    rw [downgrade_get?, hp, Option.map_some']
    have hb : (p.value == Color.YELLOW &&
        (greensOf (pass1 guess secret)).contains p.character) = false := by
      rw [Bool.and_eq_false_iff]
      left
      simpa using hv
    rw [hb]
    simp
  · intro n p q hp hq hne
    rw [downgrade_get?, hp, Option.map_some'] at hq
    by_cases hb : (p.value == Color.YELLOW &&
        (greensOf (pass1 guess secret)).contains p.character) = true
    · rw [if_pos hb] at hq
      injection hq with hq
      refine ⟨beq_iff_eq.mp ((Bool.and_eq_true _ _).mp hb).1, hq.symm⟩
    · rw [if_neg hb] at hq
      injection hq with hq
      exact absurd hq.symm hne

/-- C3 counterexample: `grayChars` does not subtract `yellowChars`; in
the history `exHistoryG`, the character 'a' is in both sets at once,
refuting the claimed disjointness of `grayChars` and the yellow set. -/
theorem c3_counterexample :
    'a' ∈ yellowChars exHistoryG ∧ 'a' ∈ grayChars exHistoryG := by
  decide

/-- C3 (amended): `grayChars` and `yellowChars` each exclude every
character resolved green, so no character is ever in `grayChars` (or
`yellowChars`) and also a `greenChars` value; but `grayChars` is not
disjoint from `yellowChars` in general. -/
theorem c3_gray_yellow_exclude_green (g : Game) (c : Char) :
    (c ∈ grayChars g → ¬ some c ∈ greenChars g) ∧
    (c ∈ yellowChars g → ¬ some c ∈ greenChars g) := by
  constructor
  · intro hc
    have h2 := (List.mem_filter.mp hc).2
    simpa using h2
  · intro hc
    have h2 := (List.mem_filter.mp hc).2
    simpa using h2

/-- C8 counterexample: the `Word` constructor performs no length check —
a 3-character string is accepted and produces a `Word` whose
`characters` has length 3, not 5. -/
theorem c8_counterexample :
    (mkWord "abc").characters = ['a', 'b', 'c'] ∧ ("abc" : String).length ≠ 5 := by
  decide

/-- C8 (amended): `Word` construction never fails and never validates
length; for every input string it produces a `Word` whose `characters`
are exactly the string's characters. -/
theorem c8_mkWord_no_length_check (s : String) :
    (mkWord s).characters = s.toList ∧ (mkWord s).characters.length = s.length :=
  ⟨rfl, rfl⟩

/-- C6: with exactly one candidate left, `guessWord` returns it, for
every grading table (the scoring heuristic and the bucket partition
cannot influence the result). -/
theorem c6_forced_move (grading : Char → ℚ) (g : Game) (w : List Char)
    (h : availableWords g = [w]) :
    guessWord grading g = Except.ok w := by
  rw [guessWord, h]
  rfl

/-- Closed instance of C6. -/
theorem c6_witness :
    guessWord (fun c => (0 : ℚ)) exSingleG = Except.ok ['c', 'r', 'a', 'n', 'e'] :=
  c6_forced_move (fun c => (0 : ℚ)) exSingleG ['c', 'r', 'a', 'n', 'e'] (by decide)

/-- C5: `evaluateWord`'s three booleans are exactly the three filter
conditions: no gray character occurs in the word, every resolved green
index carries its green character, and every yellow character occurs
somewhere in the word. -/
theorem c5_evaluateWord_filters (g : Game) (w : List Char) :
    ((evaluateWord g w).gray = true ↔ ∀ c ∈ grayChars g, ¬ c ∈ w) ∧
    ((evaluateWord g w).green = true ↔
      ∀ i c, (greenChars g).get? i = some (some c) → w.get? i = some c) ∧
    ((evaluateWord g w).yellow = true ↔ ∀ c ∈ yellowChars g, c ∈ w) := by
  refine ⟨?_, ?_, ?_⟩
  · show (!((grayChars g).any (fun c => w.contains c))) = true ↔ _
    rw [Bool.not_eq_true', List.any_eq_false]
    constructor
    · intro h c hc
      simpa using h c hc
    · intro h c hc
      simpa using h c hc
  · show ((greenChars g).enum.all (fun ic =>
        match ic.2 with
        | none => true
        | some c => w.get? ic.1 == some c)) = true ↔ _
    rw [List.all_eq_true]
    constructor
    · intro h i c hg
      have hmem : (i, some c) ∈ (greenChars g).enum :=
        List.mem_enum_iff_get?.mpr hg
      have := h (i, some c) hmem
      simpa using this
    · intro h x hx
      have hg := List.mem_enum_iff_get?.mp hx
      cases hc : x.2 with
      | none => simp [hc]
      | some c =>
        rw [hc] at hg
        have hw := h x.1 c hg
        have hw2 : w[x.1]? = some c := by
          rw [← List.get?_eq_getElem?]
          exact hw
        simp [hc, hw2]
  · show ((yellowChars g).all (fun c =>
        if !(w.contains c) then false else true)) = true ↔ _
    rw [List.all_eq_true]
    constructor
    · intro h c hc
      have := h c hc
      by_cases hw : w.contains c = true
      · simpa using hw
      · rw [if_pos (by simpa using hw)] at this
        cases this
    · intro h c hc
      rw [if_neg (by simpa using h c hc)]

/-- Any game and word give a closed instance of C5's gray filter. -/
theorem c5_witness : (evaluateWord exHistoryG ['c', 'd', 'e', 'f', 'g']).gray = true :=
  (c5_evaluateWord_filters exHistoryG ['c', 'd', 'e', 'f', 'g']).1.mpr (by decide)

lemma length_insertDescBySum (x : GradedWord) (l : List GradedWord) :
    (insertDescBySum x l).length = l.length + 1 := by
  induction l with
  | nil => rfl
  | cons y ys ih =>
    simp only [insertDescBySum]
    by_cases h : gradeSum y.grade < gradeSum x.grade
    · rw [if_pos h]
      rfl
    · rw [if_neg h, List.length_cons, List.length_cons, ih]

lemma length_sortByGradeDesc (l : List GradedWord) :
    (sortByGradeDesc l).length = l.length := by
  unfold sortByGradeDesc
  induction l with
  | nil => rfl
  | cons x xs ih => rw [List.foldr_cons, length_insertDescBySum, ih, List.length_cons]

lemma gradeWords_eq_nil_iff (grading : Char → ℚ) (g : Game) (params : List ℚ)
    (ws : List (List Char)) : gradeWords grading g params ws = [] ↔ ws = [] := by
  rw [← @List.length_eq_zero _ (gradeWords grading g params ws), ← List.length_eq_zero,
    gradeWords, length_sortByGradeDesc, List.length_map]

lemma guessWord_of_empty {grading : Char → ℚ} {g : Game}
    (h : availableWords g = []) :
    guessWord grading g = Except.error "No words remaining" := by
  rw [guessWord, h]
  rfl

lemma guessWord_of_one {grading : Char → ℚ} {g : Game}
    (h : (availableWords g).length = 1) :
    guessWord grading g = Except.ok ((availableWords g).headD []) := by
  rw [guessWord, if_neg (by omega), if_pos h]

lemma guessWord_of_many {grading : Char → ℚ} {g : Game}
    (h : 1 < (availableWords g).length) :
    guessWord grading g =
      match gradeWords grading g [1, 1, 1] (bucketAt g (chosenIdx g)) with
      | [] => Except.error "TypeError"
      | gw :: _ => Except.ok gw.word := by
  rw [guessWord, if_neg (by omega), if_neg (by omega)]

/-- C7 (amended): `guessWord` fails with the no-candidates error exactly
when the pool minus used words is empty; with more than one candidate it
additionally fails — with a TypeError, not the no-candidates error —
exactly when the selected minimum bucket is empty; and those are its
only failure modes. -/
theorem c7_guessWord_failure_modes (grading : Char → ℚ) (g : Game) :
    (guessWord grading g = Except.error "No words remaining" ↔ availableWords g = []) ∧
    (guessWord grading g = Except.error "TypeError" ↔
      1 < (availableWords g).length ∧ bucketAt g (chosenIdx g) = []) ∧
    (∀ e, guessWord grading g = Except.error e →
      e = "No words remaining" ∨ e = "TypeError") := by
  rcases hlen : (availableWords g).length with _ | n
  · have he : availableWords g = [] := List.length_eq_zero.mp hlen
    have hg : guessWord grading g = Except.error "No words remaining" :=
      guessWord_of_empty he
    refine ⟨⟨fun _ => he, fun _ => hg⟩, ⟨?_, ?_⟩, ?_⟩
    · intro hc
      rw [hg] at hc
      injection hc with hc
      exact absurd hc (by decide)
    · rintro ⟨hgt, _⟩
      omega
    · intro e hge
      rw [hg] at hge
      injection hge with hge
      exact Or.inl hge.symm
  · rcases n with _ | m
    · have hg : guessWord grading g = Except.ok ((availableWords g).headD []) :=
        guessWord_of_one hlen
      refine ⟨⟨?_, ?_⟩, ⟨?_, ?_⟩, ?_⟩
      · intro hc
        rw [hg] at hc
        cases hc
      · intro he
        rw [he] at hlen
        cases hlen
      · intro hc
        rw [hg] at hc
        cases hc
      · rintro ⟨hgt, _⟩
        omega
      · intro e hge
        rw [hg] at hge
        cases hge
    · have hmany : 1 < (availableWords g).length := by omega
      have hg := @guessWord_of_many grading g hmany
      by_cases hb : bucketAt g (chosenIdx g) = []
      · have hnil : gradeWords grading g [1, 1, 1] (bucketAt g (chosenIdx g)) = [] :=
          (gradeWords_eq_nil_iff _ _ _ _).mpr hb
        rw [hnil] at hg
        have hg' : guessWord grading g = Except.error "TypeError" := hg
        refine ⟨⟨?_, ?_⟩, ⟨fun _ => ⟨by omega, hb⟩, fun _ => hg'⟩, ?_⟩
        · intro hc
          rw [hg'] at hc
          injection hc with hc
          exact absurd hc (by decide)
        · intro he
          rw [he] at hlen
          cases hlen
        · intro e hge
          rw [hg'] at hge
          injection hge with hge
          exact Or.inr hge.symm
      · have hnnil : gradeWords grading g [1, 1, 1] (bucketAt g (chosenIdx g)) ≠ [] := by
          intro hx
          exact hb ((gradeWords_eq_nil_iff _ _ _ _).mp hx)
        obtain ⟨gw, rest, hcons⟩ := List.exists_cons_of_ne_nil hnnil
        rw [hcons] at hg
        have hg' : guessWord grading g = Except.ok gw.word := hg
        refine ⟨⟨?_, ?_⟩, ⟨?_, ?_⟩, ?_⟩
        · intro hc
          rw [hg'] at hc
          cases hc
        · intro he
          rw [he] at hlen
          cases hlen
        · intro hc
          rw [hg'] at hc
          cases hc
        · rintro ⟨_, hbe⟩
          exact absurd hbe hb
        · intro e hge
          rw [hg'] at hge
          cases hge

/-- C7 counterexample: the candidate pool is non-empty, yet `guessWord`
fails (with the TypeError, not the no-candidates error). -/
theorem c7_counterexample :
    availableWords exNoPassG ≠ [] ∧
    guessWord (fun c => (0 : ℚ)) exNoPassG = Except.error "TypeError" := by
  constructor
  · decide
  · rfl

/-- Closed instance of C7's amended failure characterization. -/
theorem c7_witness :
    guessWord (fun c => (0 : ℚ)) exNoPassG = Except.error "TypeError" ↔
      1 < (availableWords exNoPassG).length ∧
        bucketAt exNoPassG (chosenIdx exNoPassG) = [] :=
  (c7_guessWord_failure_modes (fun c => (0 : ℚ)) exNoPassG).2.1

lemma foldl_min_le_init (xs : List Nat) (a : Nat) : xs.foldl Nat.min a ≤ a := by
  induction xs generalizing a with
  | nil => exact Nat.le_refl a
  | cons y ys ih => exact Nat.le_trans (ih (Nat.min a y)) (Nat.min_le_left a y)

lemma foldl_min_le_mem {xs : List Nat} {x : Nat} (a : Nat) (hx : x ∈ xs) :
    xs.foldl Nat.min a ≤ x := by
  induction xs generalizing a with
  | nil => cases hx
  | cons y ys ih =>
    rw [List.foldl_cons]
    rcases List.mem_cons.mp hx with rfl | hmem
    · exact Nat.le_trans (foldl_min_le_init ys (Nat.min a x)) (Nat.min_le_right a x)
    · exact ih (Nat.min a y) hmem

lemma foldl_min_mem (xs : List Nat) (a : Nat) :
    xs.foldl Nat.min a = a ∨ xs.foldl Nat.min a ∈ xs := by
  induction xs generalizing a with
  | nil => exact Or.inl rfl
  | cons y ys ih =>
    rw [List.foldl_cons]
    rcases ih (Nat.min a y) with h | h
    · rw [h]
      by_cases hay : a ≤ y
      · exact Or.inl (Nat.min_eq_left hay)
      · right
        have hmin : Nat.min a y = y := Nat.min_eq_right (Nat.le_of_not_le hay)
        rw [hmin]
        exact List.mem_cons_self y ys
    · exact Or.inr (List.mem_cons_of_mem y h)

lemma listMin_le {l : List Nat} {x : Nat} (hx : x ∈ l) : listMin l ≤ x := by
  cases l with
  | nil => cases hx
  | cons y ys =>
    rcases List.mem_cons.mp hx with rfl | hmem
    · exact foldl_min_le_init ys x
    · exact foldl_min_le_mem y hmem

lemma listMin_mem {l : List Nat} (h : l ≠ []) : listMin l ∈ l := by
  cases l with
  | nil => exact absurd rfl h
  | cons y ys =>
    rcases foldl_min_mem ys y with he | hm
    · rw [listMin, he]
      exact List.mem_cons_self y ys
    · exact List.mem_cons_of_mem y hm

lemma getD_eq_getElem {α : Type} (l : List α) (d : α) {j : Nat} (h : j < l.length) :
    l.getD j d = l[j] := by
  rw [List.getD_eq_getElem?_getD, List.getElem?_eq_getElem h]
  rfl

/-- What `usedKeyIdx` computes: the index of the first entry of the
bucket table whose bucket has the minimum length. -/
lemma usedKeyIdx_spec (tg : List (String × List (List Char))) (h : tg ≠ []) :
    usedKeyIdx tg < tg.length ∧
    (∀ j, j < tg.length →
      (tg.getD (usedKeyIdx tg) ("", [])).2.length ≤ (tg.getD j ("", [])).2.length) ∧
    (∀ j, j < usedKeyIdx tg →
      (tg.getD (usedKeyIdx tg) ("", [])).2.length < (tg.getD j ("", [])).2.length) := by
  have hvs : (tg.map (fun p => p.2.length)) ≠ [] := by
    intro hx
    exact h (List.map_eq_nil.mp hx)
  have hexists : ∃ x ∈ tg.map (fun p => p.2.length),
      (x == listMin (tg.map (fun p => p.2.length))) = true :=
    ⟨listMin (tg.map (fun p => p.2.length)), listMin_mem hvs,
      beq_self_eq_true _⟩
  have hlt : usedKeyIdx tg < (tg.map (fun p => p.2.length)).length :=
    List.findIdx_lt_length_of_exists hexists
  have hlt' : usedKeyIdx tg < tg.length := by
    rw [← List.length_map tg (fun p => p.2.length)]
    exact hlt
  have hval : (tg.map (fun p => p.2.length))[usedKeyIdx tg] =
      listMin (tg.map (fun p => p.2.length)) := by
    have := @List.findIdx_getElem _ _ _ hlt
    exact beq_iff_eq.mp this
  have hmapidx : (tg.map (fun p => p.2.length))[usedKeyIdx tg] =
      tg[usedKeyIdx tg].2.length :=
    List.getElem_map (fun p : String × List (List Char) => p.2.length)
  have hgetval : (tg.getD (usedKeyIdx tg) ("", [])).2.length =
      listMin (tg.map (fun p => p.2.length)) := by
    rw [getD_eq_getElem tg ("", []) hlt', ← hmapidx]
    exact hval
  refine ⟨hlt', ?_, ?_⟩
  · intro j hj
    rw [hgetval]
    have hjm : j < (tg.map (fun p => p.2.length)).length := by
      rw [List.length_map]
      exact hj
    have hmapj : (tg.map (fun p => p.2.length))[j] = tg[j].2.length :=
      List.getElem_map (fun p : String × List (List Char) => p.2.length)
    have hmem : (tg.getD j ("", [])).2.length ∈ tg.map (fun p => p.2.length) := by
      rw [getD_eq_getElem tg ("", []) hj, ← hmapj]
      exact List.getElem_mem hjm
    exact listMin_le hmem
  · intro j hj
    have hjlt : j < tg.length := Nat.lt_trans hj hlt'
    have hjm : j < (tg.map (fun p => p.2.length)).length := by
      rw [List.length_map]
      exact hjlt
    have hmapj : (tg.map (fun p => p.2.length))[j] = tg[j].2.length :=
      List.getElem_map (fun p : String × List (List Char) => p.2.length)
    have hne := @List.not_of_lt_findIdx _
      (fun e => e == listMin (tg.map (fun p : String × List (List Char) => p.2.length)))
      (tg.map (fun p : String × List (List Char) => p.2.length)) j hj
    have hne' : (tg.map (fun p => p.2.length))[j] ≠
        listMin (tg.map (fun p => p.2.length)) := by
      intro hx
      rw [hx] at hne
      rw [beq_self_eq_true] at hne
      cases hne
    have hle : listMin (tg.map (fun p => p.2.length)) ≤
        (tg.map (fun p => p.2.length))[j] :=
      listMin_le (List.getElem_mem hjm)
    have hgj : (tg.getD j ("", [])).2.length = (tg.map (fun p => p.2.length))[j] := by
      rw [getD_eq_getElem tg ("", []) hjlt, ← hmapj]
    rw [hgetval, hgj]
    omega

lemma mem_bucket_iff {g : Game} {avail : List (List Char)} {q : Grade → Bool}
    {w : List Char} :
    w ∈ ((avail.map (fun word => (evaluateWord g word, word))).filter
        (fun p => q p.1)).map (fun p => p.2) ↔
      w ∈ avail ∧ q (evaluateWord g w) = true := by
  constructor
  · intro hw
    obtain ⟨p, hp, hpe⟩ := List.mem_map.mp hw
    obtain ⟨hpmem, hq⟩ := List.mem_filter.mp hp
    obtain ⟨a, ha, hae⟩ := List.mem_map.mp hpmem
    subst hae
    have haw : a = w := hpe
    subst haw
    exact ⟨ha, hq⟩
  · rintro ⟨hw, hq⟩
    exact List.mem_map.mpr ⟨(evaluateWord g w, w),
      List.mem_filter.mpr ⟨List.mem_map.mpr ⟨w, hw, rfl⟩, hq⟩, rfl⟩

/-- C4: with more than one candidate remaining, `guessWord` builds the
seven buckets "g","v","y","gv","gy","yv","gvy" of candidates keyed by
which of the gray/green/yellow predicates they satisfy, and selects the
first bucket of minimum size (strictly smaller than every earlier
bucket, no larger than any bucket); the guess is then taken from that
bucket. -/
theorem c4_bucket_partition_min (g : Game) (h : 1 < (availableWords g).length) :
    (typeGradedWords g (availableWords g)).map (fun p => p.1) =
      ["g", "v", "y", "gv", "gy", "yv", "gvy"] ∧
    (∀ w, (w ∈ bucketAt g 0 ↔ w ∈ availableWords g ∧ (evaluateWord g w).gray = true) ∧
      (w ∈ bucketAt g 1 ↔ w ∈ availableWords g ∧ (evaluateWord g w).green = true) ∧
      (w ∈ bucketAt g 2 ↔ w ∈ availableWords g ∧ (evaluateWord g w).yellow = true) ∧
      (w ∈ bucketAt g 3 ↔ w ∈ availableWords g ∧
        (evaluateWord g w).gray = true ∧ (evaluateWord g w).green = true) ∧
      (w ∈ bucketAt g 4 ↔ w ∈ availableWords g ∧
        (evaluateWord g w).gray = true ∧ (evaluateWord g w).yellow = true) ∧
      (w ∈ bucketAt g 5 ↔ w ∈ availableWords g ∧
        (evaluateWord g w).green = true ∧ (evaluateWord g w).yellow = true) ∧
      (w ∈ bucketAt g 6 ↔ w ∈ availableWords g ∧
        (evaluateWord g w).gray = true ∧ (evaluateWord g w).green = true ∧
          (evaluateWord g w).yellow = true)) ∧
    chosenIdx g < 7 ∧
    (∀ j, j < 7 → (bucketAt g (chosenIdx g)).length ≤ (bucketAt g j).length) ∧
    (∀ j, j < chosenIdx g → (bucketAt g (chosenIdx g)).length < (bucketAt g j).length) ∧
    (∀ grading : Char → ℚ, guessWord grading g =
      match gradeWords grading g [1, 1, 1] (bucketAt g (chosenIdx g)) with
      | [] => Except.error "TypeError"
      | gw :: _ => Except.ok gw.word) := by
  have h7 : (typeGradedWords g (availableWords g)).length = 7 := rfl
  have hne : typeGradedWords g (availableWords g) ≠ [] := by
    intro hx
    rw [hx] at h7
    cases h7
  obtain ⟨hidx, hmin, hfirst⟩ := usedKeyIdx_spec _ hne
  refine ⟨rfl, ?_, ?_, ?_, ?_, ?_⟩
  · intro w
    refine ⟨mem_bucket_iff, mem_bucket_iff, mem_bucket_iff, ?_, ?_, ?_, ?_⟩
    · have hb := @mem_bucket_iff g (availableWords g)
        (fun gr => gr.gray && gr.green) w
      rw [Bool.and_eq_true] at hb
      exact hb
    · have hb := @mem_bucket_iff g (availableWords g)
        (fun gr => gr.gray && gr.yellow) w
      rw [Bool.and_eq_true] at hb
      exact hb
    · have hb := @mem_bucket_iff g (availableWords g)
        (fun gr => gr.green && gr.yellow) w
      rw [Bool.and_eq_true] at hb
      exact hb
    · have hb := @mem_bucket_iff g (availableWords g)
        (fun gr => gr.gray && gr.green && gr.yellow) w
      rw [Bool.and_eq_true, Bool.and_eq_true] at hb
      exact hb.trans (by tauto)
  · rw [← h7]
    exact hidx
  · intro j hj
    exact hmin j (by rw [h7]; exact hj)
  · intro j hj
    exact hfirst j hj
  · intro grading
    exact guessWord_of_many h

/-- Closed instance of C4: the bucket keys of a concrete two-candidate
state, in their fixed order. -/
theorem c4_witness :
    (typeGradedWords exNoPassG (availableWords exNoPassG)).map (fun p => p.1) =
      ["g", "v", "y", "gv", "gy", "yv", "gvy"] :=
  (c4_bucket_partition_min exNoPassG (by decide)).1

lemma train_succ (draws : Nat → List ℚ) (gameTries : Nat → List Nat) (k : Nat) :
    train draws gameTries (k + 1) =
      trainLoop (draws k) (gameTries k) (train draws gameTries k) := by
  rw [train, train, List.range_succ, List.foldl_append]
  rfl

lemma trainLoop_le (newParams : List ℚ) (tries : List Nat) (st : TrainState) :
    (trainLoop newParams tries st).bestAvg ≤ st.bestAvg := by
  rw [trainLoop]
  by_cases h : genAvg tries < st.bestAvg
  · rw [if_pos h]
    exact le_of_lt h
  · rw [if_neg h]

lemma trainLoop_le_avg (newParams : List ℚ) (tries : List Nat) (st : TrainState) :
    (trainLoop newParams tries st).bestAvg ≤ st.bestAvg ⊓ genAvg tries := by
  rw [trainLoop]
  by_cases h : genAvg tries < st.bestAvg
  · rw [if_pos h]
    exact le_min (le_of_lt h) (le_refl _)
  · rw [if_neg h]
    exact le_min (le_refl _) (le_of_not_lt h)

/-- C9: over any fixed sequence of random draws, the best-so-far average
of `train` never increases from one generation to the next, and after
at least one generation the returned `bestAvg` is at most the average
try count of the very first sampled parameter vector. -/
theorem c9_train_bestAvg_monotone (draws : Nat → List ℚ) (gameTries : Nat → List Nat)
    (generations : Nat) (h : 1 ≤ generations) :
    (∀ k, (train draws gameTries (k + 1)).bestAvg ≤ (train draws gameTries k).bestAvg) ∧
    (train draws gameTries generations).bestAvg ≤ genAvg (gameTries 0) := by
  have hstep : ∀ k, (train draws gameTries (k + 1)).bestAvg ≤
      (train draws gameTries k).bestAvg := by
    intro k
    rw [train_succ]
    exact trainLoop_le _ _ _
  refine ⟨hstep, ?_⟩
  have hone : (train draws gameTries 1).bestAvg ≤ genAvg (gameTries 0) := by
    rw [train_succ]
    exact le_trans (trainLoop_le_avg _ _ _) (min_le_right _ _)
  have hchain : ∀ m, (train draws gameTries (1 + m)).bestAvg ≤
      (train draws gameTries 1).bestAvg := by
    intro m
    induction m with
    | zero => exact le_refl _
    | succ n ih =>
      have heq : 1 + (n + 1) = (1 + n) + 1 := by omega
      rw [heq]
      exact le_trans (hstep (1 + n)) ih
  have hgen : generations = 1 + (generations - 1) := by omega
  rw [hgen]
  exact le_trans (hchain (generations - 1)) hone

/-- Closed instance of C9 at one generation with a single game taking
one try. -/
theorem c9_witness :
    (train (fun k => []) (fun k => [1]) 1).bestAvg ≤ genAvg ((fun k => [1]) 0) :=
  (c9_train_bestAvg_monotone (fun k => []) (fun k => [1]) 1 (by decide)).2

end WordleSolver

